import Mathlib

/-!
Verification of the vsjsonfmt core (src/vsjsonfmt/cli.py): the lenient
JSONC reader (`_strip_comments`, `_strip_trailing_commas`,
`parse_json_lenient`) and the width-aware layout engine (`_dump_oneline`,
`_compact_object`, `_compact_list`, `_format_value`, `format_json`).

The embedding works over `List Char` (the shallow embedding of Python
`str`).  JSON numbers are modelled as integers: float semantics
(IEEE repr, NaN, Infinity) are outside the embedding's scope; the spec
only requires that integers round-trip exactly.
-/

namespace Vsjsonfmt

/-- A parsed JSON value (the value trees produced by `json.loads` with
object member insertion order preserved).  Numbers are modelled as `Int`. -/
inductive JValue where
  | null
  | bool (b : Bool)
  | num (n : Int)
  | str (s : String)
  | arr (elems : List JValue)
  | obj (members : List (String × JValue))

/-- The `FormatConfig` dataclass of cli.py.  `eol` is kept as a character
list; string-valued enums (`array_wrap`, `object_wrap`) stay strings. -/
structure FormatConfig where
  indent : Nat
  print_width : Nat
  array_wrap : String
  object_wrap : String
  aggressive_inline : Bool
  long_block_threshold : Nat
  eol : List Char
  array_collapse_keys : List String
  inline_homogeneous_objects : Bool
  inline_homogeneous_min : Nat
  inline_string_max : Nat
  allow_overflow_inline_arrays : Bool
deriving Repr, DecidableEq

/-- The built-in defaults (`FormatConfig()` / `DEFAULT_CONFIG` in cli.py). -/
def DEFAULT_CONFIG : FormatConfig :=
  { indent := 2
    print_width := 120
    array_wrap := "collapse"
    object_wrap := "collapse"
    aggressive_inline := true
    long_block_threshold := 20
    eol := ['\n']
    array_collapse_keys :=
      ["requireStacks", "addElements", "removeElements",
       "ingredients", "outputs", "drops"]
    inline_homogeneous_objects := true
    inline_homogeneous_min := 3
    inline_string_max := 120
    allow_overflow_inline_arrays := true }

/-! ## json.dumps (the parts cli.py uses)

`_dump_oneline` is `json.dumps(val, ensure_ascii=False, separators=(",", ": "))`;
object keys elsewhere are dumped with `json.dumps(k)` (ensure_ascii=True). -/

/-- Lowercase hexadecimal digit, as produced by Python's `'{0:04x}'.format`. -/
def hexDigit (n : Nat) : Char :=
  if n < 10 then Char.ofNat ('0'.toNat + n) else Char.ofNat ('a'.toNat + (n - 10))

/-- Four lowercase hex digits of `n < 0x10000` (a `\uXXXX` escape body). -/
def hex4chars (n : Nat) : List Char :=
  [hexDigit (n / 4096 % 16), hexDigit (n / 256 % 16),
   hexDigit (n / 16 % 16), hexDigit (n % 16)]

/-- One character of a string value, escaped as by Python's
`json.dumps(..., ensure_ascii=False)`: only `"`, `\` and control
characters below 0x20 are escaped. -/
def escChar (c : Char) : List Char :=
  if c = '"' then ['\\', '"']
  else if c = '\\' then ['\\', '\\']
  else if c = '\x08' then ['\\', 'b']
  else if c = '\x0c' then ['\\', 'f']
  else if c = '\n' then ['\\', 'n']
  else if c = '\r' then ['\\', 'r']
  else if c = '\t' then ['\\', 't']
  else if c.toNat < 0x20 then '\\' :: 'u' :: hex4chars c.toNat
  else [c]

/-- One character escaped as by Python's default `json.dumps` (ensure_ascii
= True): like `escChar`, but anything outside printable ASCII becomes a
`\uXXXX` escape, with a surrogate pair for code points above 0xFFFF. -/
def escCharAscii (c : Char) : List Char :=
  if c = '"' then ['\\', '"']
  else if c = '\\' then ['\\', '\\']
  else if c = '\x08' then ['\\', 'b']
  else if c = '\x0c' then ['\\', 'f']
  else if c = '\n' then ['\\', 'n']
  else if c = '\r' then ['\\', 'r']
  else if c = '\t' then ['\\', 't']
  else if c.toNat < 0x20 then '\\' :: 'u' :: hex4chars c.toNat
  else if c.toNat ≤ 0x7e then [c]
  else if c.toNat < 0x10000 then '\\' :: 'u' :: hex4chars c.toNat
  else
    let n := c.toNat - 0x10000
    ('\\' :: 'u' :: hex4chars (0xd800 + n / 0x400)) ++
      ('\\' :: 'u' :: hex4chars (0xdc00 + n % 0x400))

/-- A JSON string literal for a string value (ensure_ascii=False). -/
def dumpStr (s : String) : List Char :=
  '"' :: (s.data.flatMap escChar ++ ['"'])

/-- A JSON string literal for an object key (`json.dumps(k)`,
ensure_ascii=True). -/
def dumpKey (s : String) : List Char :=
  '"' :: (s.data.flatMap escCharAscii ++ ['"'])

/-- Decimal digits of a natural number, most significant first
(`repr` of a nonnegative Python int). -/
def natChars (n : Nat) : List Char :=
  if n < 10 then [hexDigit n] else natChars (n / 10) ++ [hexDigit (n % 10)]
termination_by n
decreasing_by simp_wf; omega

/-- `repr` of a Python int: optional minus sign, then decimal digits. -/
def intChars (i : Int) : List Char :=
  if i < 0 then '-' :: natChars i.natAbs else natChars i.natAbs

/-- Join chunks with a separator (Python `sep.join(parts)`). -/
def joinSep (sep : List Char) : List (List Char) → List Char
  | [] => []
  | [x] => x
  | x :: y :: xs => x ++ sep ++ joinSep sep (y :: xs)

mutual
/-- `_dump_oneline`: `json.dumps(val, ensure_ascii=False, separators=(",", ": "))`. -/
def dump_oneline : JValue → List Char
  | .null => "null".data
  | .bool true => "true".data
  | .bool false => "false".data
  | .num n => intChars n
  | .str s => dumpStr s
  | .arr l => '[' :: (dumpElems l ++ [']'])
  | .obj m => '{' :: (dumpMembers m ++ ['}'])
/-- Array items of `json.dumps(..., separators=(",", ": "))`: joined by `,`. -/
def dumpElems : List JValue → List Char
  | [] => []
  | [x] => dump_oneline x
  | x :: xs => dump_oneline x ++ ',' :: dumpElems xs
/-- Object members of `json.dumps(..., ensure_ascii=False,
separators=(",", ": "))`: `key: value`, joined by `,` (keys not
ASCII-escaped here, matching ensure_ascii=False). -/
def dumpMembers : List (String × JValue) → List Char
  | [] => []
  | [(k, v)] => dumpStr k ++ ':' :: ' ' :: dump_oneline v
  | (k, v) :: ms => dumpStr k ++ ':' :: ' ' :: dump_oneline v ++ ',' :: dumpMembers ms
end

/-- `_is_prim`: anything but a list or a dict. -/
def is_prim : JValue → Bool
  | .arr _ => false
  | .obj _ => false
  | _ => true

/-- `_fits_width`: `len(s) + level * cfg.indent <= cfg.print_width`. -/
def fits_width (s : List Char) (cfg : FormatConfig) (level : Nat) : Bool :=
  s.length + level * cfg.indent ≤ cfg.print_width

/-- `_line_count`: `s.count("\n") + 1`. -/
def line_count (s : List Char) : Nat :=
  s.count '\n' + 1

/-- `_keys_tuple`: the ordered key tuple of a dict. -/
def keys_tuple (d : List (String × JValue)) : List String :=
  d.map Prod.fst

/-- `_is_small_prim`: a primitive, and if a string, no longer than
`inline_string_max`. -/
def is_small_prim (v : JValue) (cfg : FormatConfig) : Bool :=
  if !is_prim v then false
  else match v with
    | .str s => !(s.length > cfg.inline_string_max)
    | _ => true

/-- `_array_is_homog_small_objs`: at least `inline_homogeneous_min`
elements, all dicts, sharing the first element's nonempty ordered key
tuple, every value a small primitive; returns the key order. -/
def array_is_homog_small_objs (l : List JValue) (cfg : FormatConfig) :
    Bool × List String :=
  if l.isEmpty || l.length < cfg.inline_homogeneous_min then (false, [])
  else if !(l.all fun x => match x with | .obj _ => true | _ => false) then (false, [])
  else
    let key_order := match l.head? with | some (.obj d) => keys_tuple d | _ => []
    if key_order.isEmpty then (false, [])
    else if l.all (fun x => match x with
        | .obj d => keys_tuple d == key_order
            && d.all (fun kv => is_small_prim kv.2 cfg)
        | _ => false)
    then (true, key_order)
    else (false, [])

/-- `_compact_object`: `{ k: v, ... }` on one line, only when every member
value is a small primitive (keys via `json.dumps(k)`, ASCII-escaped). -/
def compact_object (d : List (String × JValue)) (cfg : FormatConfig) :
    Option (List Char) :=
  if d.all (fun kv => is_small_prim kv.2 cfg) then
    some ("\x7b ".data ++
      joinSep ", ".data (d.map fun kv => dumpKey kv.1 ++ ": ".data ++ dump_oneline kv.2)
      ++ " \x7d".data)
  else none

mutual
/-- `_compact_list`: every element compacted (primitives dumped, dicts via
`_compact_object`, nested lists recursively at the same level), joined as
`[ ... ]`; kept only if it fits the width or overflow is allowed. -/
def compact_list (l : List JValue) (cfg : FormatConfig) (level : Nat) :
    Option (List Char) :=
  match compactListParts l cfg level with
  | none => none
  | some parts =>
    let one := "[ ".data ++ joinSep ", ".data parts ++ " ]".data
    if fits_width one cfg level || cfg.allow_overflow_inline_arrays then some one
    else none
/-- The element loop of `_compact_list`: `None` as soon as one element
cannot be compacted. -/
def compactListParts (l : List JValue) (cfg : FormatConfig) (level : Nat) :
    Option (List (List Char)) :=
  match l with
  | [] => some []
  | el :: rest =>
    match compact_element el cfg level with
    | none => none
    | some s => (compactListParts rest cfg level).map (s :: ·)
/-- One element's single-line compact form: primitives dumped inline,
dicts via `_compact_object`, nested lists via `_compact_list` at the given
level; `None` when the element cannot be compacted. -/
def compact_element (el : JValue) (cfg : FormatConfig) (level : Nat) :
    Option (List Char) :=
  match el with
  | .obj d => compact_object d cfg
  | .arr a => compact_list a cfg level
  | _ => some (dump_oneline el)
end

/-- The per-element loop of the collapse-key branch of `_format_value`
(strategy (b)): each element's compact form (`_compact_list` for nested
lists at `level + 1`); `None` as soon as one element stays uncompactable
(the `break` of the Python loop). -/
def collapse_elems (l : List JValue) (cfg : FormatConfig) (level : Nat) :
    Option (List (List Char)) :=
  match l with
  | [] => some []
  | el :: rest =>
    match compact_element el cfg (level + 1) with
    | none => none
    | some s => (collapse_elems rest cfg level).map (s :: ·)

/-- Spaces of the given width (`" " * n`). -/
def spaces (n : Nat) : List Char :=
  List.replicate n ' '

/-- `d[k]` on a dict, as an option. -/
def lookupKey (d : List (String × JValue)) (k : String) : Option JValue :=
  (d.find? (fun kv => kv.1 == k)).map (·.2)

/-- `{k: el[k] for k in key_order}`: the members re-emitted in `key_order`.
The caller guarantees every key is present (`keys_tuple d == key_order`),
so the `.null` default is never used. -/
def reorder_members (key_order : List String) (d : List (String × JValue)) :
    List (String × JValue) :=
  key_order.map fun k => (k, (lookupKey d k).getD .null)

/-- Whether `parent_key` is in `cfg.array_collapse_keys`. -/
def is_collapse_key (parent_key : Option String) (cfg : FormatConfig) : Bool :=
  match parent_key with
  | some k => cfg.array_collapse_keys.contains k
  | none => false

/-- One line of the homogeneous-object-array rule: the element re-emitted
in `key_order`, compact (`_compact_object(el_sorted, cfg) or
_dump_oneline(el_sorted)`). -/
def homog_elem_line (el : JValue) (key_order : List String) (cfg : FormatConfig) :
    List Char :=
  match el with
  | .obj d =>
    let el_sorted := reorder_members key_order d
    (compact_object el_sorted cfg).getD (dump_oneline (.obj el_sorted))
  | _ => dump_oneline el

mutual
/-- `_format_value`: the layout engine.  Strategy order mirrors cli.py:
for arrays, collapse-key compaction, then the homogeneous-object-array
rule, then inline collapse of primitive arrays that fit, then the
multi-line default; for objects, the inline collapse attempt, then the
multi-line default. -/
def format_value (val : JValue) (cfg : FormatConfig) (level : Nat)
    (parent_key : Option String) : List Char :=
  let ind := spaces (cfg.indent * level)
  let child := spaces (cfg.indent * (level + 1))
  match val with
  | .arr l =>
    let collapseKeyResult : Option (List Char) :=
      if is_collapse_key parent_key cfg then
        match compact_list l cfg level with
        | some whole_inline => some whole_inline
        | none =>
          match collapse_elems l cfg level with
          | some elem_strings =>
            some ("[\n".data ++
              joinSep ",\n".data (elem_strings.map (child ++ ·)) ++
              '\n' :: (ind ++ [']']))
          | none => none
      else none
    match collapseKeyResult with
    | some s => s
    | none =>
      let homogResult : Option (List Char) :=
        if cfg.inline_homogeneous_objects then
          match array_is_homog_small_objs l cfg with
          | (true, key_order) =>
            some ("[\n".data ++
              joinSep ",\n".data
                (l.map fun el => child ++ homog_elem_line el key_order cfg) ++
              '\n' :: (ind ++ [']']))
          | _ => none
        else none
      match homogResult with
      | some s => s
      | none =>
        let primCollapse : Option (List Char) :=
          if cfg.array_wrap == "collapse" && !l.isEmpty && l.all is_prim then
            let one := '[' :: (joinSep ", ".data (l.map dump_oneline) ++ [']'])
            if fits_width one cfg level && line_count one ≤ cfg.long_block_threshold
            then some one else none
          else none
        match primCollapse with
        | some s => s
        | none =>
          "[\n".data ++
            joinSep ",\n".data (format_elems_default l cfg (level + 1) child) ++
            '\n' :: (ind ++ [']'])
  | .obj m =>
    let collapsed : Option (List Char) :=
      if cfg.object_wrap == "collapse" then
        if (m.all (fun kv => is_prim kv.2) || cfg.aggressive_inline) && !m.isEmpty
        then
          match inline_chunks m cfg level with
          | some chunks =>
            let one := "\x7b ".data ++ joinSep ", ".data chunks ++ " \x7d".data
            if fits_width one cfg level && line_count one ≤ cfg.long_block_threshold
            then some one else none
          | none => none
        else none
      else none
    match collapsed with
    | some s => s
    | none =>
      "\x7b\n".data ++
        joinSep ",\n".data (format_members_multiline m cfg (level + 1) child) ++
        '\n' :: (ind ++ ['}'])
  | _ => dump_oneline val
/-- The element lines of the default multi-line array form, each indented
with `child` and formatted at the deeper level (no parent key). -/
def format_elems_default (l : List JValue) (cfg : FormatConfig) (level : Nat)
    (child : List Char) : List (List Char) :=
  match l with
  | [] => []
  | el :: rest =>
    (child ++ format_value el cfg level none) ::
      format_elems_default rest cfg level child
/-- The member lines of the multi-line object form: `key: value` at the
deeper level, with the member key as the child's parent key. -/
def format_members_multiline (m : List (String × JValue)) (cfg : FormatConfig)
    (level : Nat) (child : List Char) : List (List Char) :=
  match m with
  | [] => []
  | (k, v) :: rest =>
    (child ++ dumpKey k ++ ": ".data ++ format_value v cfg level (some k)) ::
      format_members_multiline rest cfg level child
/-- The chunk loop of the object collapse attempt: each member rendered as
`key: value`, with non-primitive values formatted recursively at the same
level (their key as parent key); `None` as soon as one such rendering
spans multiple lines. -/
def inline_chunks (m : List (String × JValue)) (cfg : FormatConfig)
    (level : Nat) : Option (List (List Char)) :=
  match m with
  | [] => some []
  | (k, v) :: rest =>
    if is_prim v then
      (inline_chunks rest cfg level).map
        ((dumpKey k ++ ": ".data ++ dump_oneline v) :: ·)
    else
      let candidate := format_value v cfg level (some k)
      if candidate.contains '\n' then none
      else (inline_chunks rest cfg level).map
        ((dumpKey k ++ ": ".data ++ candidate) :: ·)
end

/-- `format_json`: the formatted document, `_format_value` at level 0 with
no parent key, with `cfg.eol` appended. -/
def format_json (data : JValue) (cfg : FormatConfig) : List Char :=
  format_value data cfg 0 none ++ cfg.eol

/-! ## The lenient reader: `_strip_comments`

`_strip_comments` walks the `_STRING_RE` matches (`"(?:\\.|[^"\\])*"`) and
applies the two comment regexes (`//.*?(?=\n|$)` first, then `/\*.*?\*/`
with DOTALL) to each gap between matches, keeping the matches verbatim.
The regex semantics are modelled exactly: a string match starts at a `"`
and consumes `\\.`-pairs (the `.` not matching a newline) or other
non-quote non-backslash characters until a closing `"`; if no closing is
possible the engine moves on one character.  The line-comment regex
removes from `//` up to (excluding) the next newline or the end of the
gap; the block-comment regex removes from `/*` up to the first following
`*/`, leaving an unclosed `/*` in place. -/

/-- One `_STRING_RE` match attempt, after an opening quote: the matched
characters (including the closing quote) and the remaining text. -/
def scan_str_lit : (l : List Char) → Option (List Char × { r : List Char // r.length ≤ l.length })
  | [] => none
  | '"' :: r => some (['"'], ⟨r, by simp⟩)
  | '\\' :: c :: r =>
    if c = '\n' then none
    else match scan_str_lit r with
      | none => none
      | some (m, ⟨rest, h⟩) =>
        some ('\\' :: c :: m, ⟨rest, by simp only [List.length_cons]; omega⟩)
  | '\\' :: [] => none
  | c :: r =>
    match scan_str_lit r with
    | none => none
    | some (m, ⟨rest, h⟩) =>
      some (c :: m, ⟨rest, by simp only [List.length_cons]; omega⟩)

/-- `_SLASH_SLASH_COMMENT_RE.sub("", gap)`: remove every `//`-to-end-of-line
span (the newline itself survives; a comment at the end of the gap is
removed up to the gap's end). -/
def line_comment_sub : List Char → List Char
  | '/' :: '/' :: rest => line_comment_sub (rest.dropWhile (· ≠ '\n'))
  | c :: rest => c :: line_comment_sub rest
  | [] => []
termination_by l => l.length
decreasing_by
  all_goals simp only [List.length_cons]
  · have := List.Sublist.length_le
      (List.dropWhile_sublist (l := rest) (fun c => decide (c ≠ '\n')))
    omega
  · omega

/-- The text after the first `*/`, if any. -/
def split_block_close : (l : List Char) → Option { r : List Char // r.length ≤ l.length }
  | '*' :: '/' :: r => some ⟨r, by simp only [List.length_cons]; omega⟩
  | _ :: rest =>
    (split_block_close rest).map fun p =>
      ⟨p.1, by have := p.2; simp only [List.length_cons]; omega⟩
  | [] => none

/-- `_SLASH_STAR_COMMENT_RE.sub("", gap)`: remove every `/*`-to-first-`*/`
span; a `/*` with no later `*/` stays (no match is possible there or
later). -/
def block_comment_sub : List Char → List Char
  | '/' :: '*' :: rest =>
    match split_block_close rest with
    | some ⟨r, _hr⟩ => block_comment_sub r
    | none => '/' :: '*' :: rest
  | c :: rest => c :: block_comment_sub rest
  | [] => []
termination_by l => l.length
decreasing_by
  all_goals simp only [List.length_cons]
  · omega
  · omega

/-- Both comment substitutions, in the order cli.py applies them to a gap. -/
def comment_subs (g : List Char) : List Char :=
  block_comment_sub (line_comment_sub g)

/-- The scan loop of `_strip_comments`: accumulate the current gap
(reversed); at each string match emit the comment-stripped gap and the
match verbatim, then continue after the match. -/
def sc_run (gapRev : List Char) : List Char → List Char
  | [] => comment_subs gapRev.reverse
  | '"' :: t =>
    match scan_str_lit t with
    | some (lit, ⟨rest, _hrest⟩) =>
      comment_subs gapRev.reverse ++ '"' :: (lit ++ sc_run [] rest)
    | none => sc_run ('"' :: gapRev) t
  | c :: t => sc_run (c :: gapRev) t
termination_by l => l.length
decreasing_by
  all_goals simp only [List.length_cons]
  · omega
  · omega
  · omega

/-- `_strip_comments`. -/
def strip_comments (s : String) : String :=
  String.mk (sc_run [] s.data)

/-! ## The lenient reader: `_strip_trailing_commas` -/

/-- Python `str.isspace()` on a single character. -/
def pyIsSpace (c : Char) : Bool :=
  ([9, 10, 11, 12, 13, 28, 29, 30, 31, 32, 0x85, 0xa0, 0x1680,
    0x2000, 0x2001, 0x2002, 0x2003, 0x2004, 0x2005, 0x2006, 0x2007,
    0x2008, 0x2009, 0x200a, 0x2028, 0x2029, 0x202f, 0x205f, 0x3000] : List Nat).contains
    c.toNat

/-- The backward scan at a closer: skip whitespace already emitted, and
drop one `,` if it is the first non-space character (the whitespace after
it is kept).  `out` is the emitted text, most recent character first. -/
def pop_trailing_comma (out : List Char) : List Char :=
  let ws := out.takeWhile pyIsSpace
  match out.dropWhile pyIsSpace with
  | ',' :: r => ws ++ r
  | _ => out

/-- The character loop of `_strip_trailing_commas`: `out` is the emitted
text reversed; `in_string`/`escape` track the string-literal state. -/
def stc_run (out : List Char) (in_string escape : Bool) : List Char → List Char
  | [] => out.reverse
  | ch :: t =>
    if in_string then
      if escape then stc_run (ch :: out) true false t
      else if ch = '\\' then stc_run (ch :: out) true true t
      else if ch = '"' then stc_run (ch :: out) false false t
      else stc_run (ch :: out) true false t
    else if ch = '"' then stc_run (ch :: out) true false t
    else if ch = '}' ∨ ch = ']' then stc_run (ch :: pop_trailing_comma out) false false t
    else stc_run (ch :: out) false false t

/-- `_strip_trailing_commas`. -/
def strip_trailing_commas (s : String) : String :=
  String.mk (stc_run [] false false s.data)

/-! ## The strict decoder

Modelled from the spec: the strict JSON decoder the reader delegates to
(`json.loads`, spec §4.1/§6) is standard-library code, not part of this
repository's sources, so it is embedded here from its documented
behaviour: values dispatched on the first character, member insertion
order preserved with last-occurrence-wins for duplicate keys, and
`JSONDecodeError`'s message/line/column positions.  Numbers are restricted
to integers (float literals, `NaN` and `Infinity` are outside this
embedding), and a lone surrogate `\uXXXX` escape decodes to U+FFFD since
Lean's `Char` excludes surrogates. -/

/-- A scan error: the message and the length of the remaining input at the
position the error points at (`pos = total length - rem`). -/
structure ScanErr where
  msg : String
  rem : Nat
deriving Repr, DecidableEq

/-- JSON whitespace skipped by the decoder (`[ \t\n\r]*`). -/
def is_json_ws (c : Char) : Bool :=
  c = ' ' || c = '\t' || c = '\n' || c = '\r'

/-- Skip JSON whitespace. -/
def skip_ws : List Char → List Char
  | c :: t => if is_json_ws c then skip_ws t else c :: t
  | [] => []

/-- A decimal digit. -/
def is_digit (c : Char) : Bool :=
  '0' ≤ c && c ≤ '9'

/-- The longest digit prefix, and the rest. -/
def span_digits : List Char → List Char × List Char
  | c :: t =>
    if is_digit c then
      let p := span_digits t
      (c :: p.1, p.2)
    else ([], c :: t)
  | [] => ([], [])

/-- The value of one decimal digit character. -/
def digitVal (c : Char) : Nat :=
  c.toNat - '0'.toNat

/-- The value of a decimal digit string. -/
def digitsToNat (ds : List Char) : Nat :=
  ds.foldl (fun a c => a * 10 + digitVal c) 0

/-- The value of one hexadecimal digit character (either case). -/
def hexDigitVal (c : Char) : Option Nat :=
  if is_digit c then some (c.toNat - '0'.toNat)
  else if 'a' ≤ c && c ≤ 'f' then some (10 + (c.toNat - 'a'.toNat))
  else if 'A' ≤ c && c ≤ 'F' then some (10 + (c.toNat - 'A'.toNat))
  else none

/-- The value of four hexadecimal digit characters. -/
def hex4val (a b c d : Char) : Option Nat :=
  match hexDigitVal a, hexDigitVal b, hexDigitVal c, hexDigitVal d with
  | some va, some vb, some vc, some vd => some (((va * 16 + vb) * 16 + vc) * 16 + vd)
  | _, _, _, _ => none

/-- The decoder's simple escape table (`\" \\ \/ \b \f \n \r \t`). -/
def simple_escape : Char → Option Char
  | '"' => some '"'
  | '\\' => some '\\'
  | '/' => some '/'
  | 'b' => some '\x08'
  | 'f' => some '\x0c'
  | 'n' => some '\n'
  | 'r' => some '\r'
  | 't' => some '\t'
  | _ => none

/-- The decoder's string scanner, after the opening quote.  `beginRem` is
the remaining length at the opening quote, for the unterminated-string
error position. -/
def scan_string (beginRem : Nat) (acc : List Char) :
    List Char → Except ScanErr (String × List Char)
  | [] => .error ⟨"Unterminated string starting at", beginRem⟩
  | '"' :: r => .ok (String.mk acc.reverse, r)
  | '\\' :: 'u' :: a :: b :: c :: d :: r =>
    match hex4val a b c d with
    | none => .error ⟨"Invalid \\uXXXX escape", r.length + 4⟩
    | some u1 =>
      if 0xd800 ≤ u1 ∧ u1 < 0xdc00 then
        match hsur : r with
        | '\\' :: 'u' :: a2 :: b2 :: c2 :: d2 :: r2 =>
          match hex4val a2 b2 c2 d2 with
          | none => .error ⟨"Invalid \\uXXXX escape", r2.length + 4⟩
          | some u2 =>
            if 0xdc00 ≤ u2 ∧ u2 < 0xe000 then
              scan_string beginRem
                (Char.ofNat (0x10000 + (u1 - 0xd800) * 0x400 + (u2 - 0xdc00)) :: acc) r2
            else scan_string beginRem (Char.ofNat 0xfffd :: acc) r
        | _ => scan_string beginRem (Char.ofNat 0xfffd :: acc) r
      else if 0xdc00 ≤ u1 ∧ u1 < 0xe000 then
        scan_string beginRem (Char.ofNat 0xfffd :: acc) r
      else scan_string beginRem (Char.ofNat u1 :: acc) r
  | '\\' :: 'u' :: r => .error ⟨"Invalid \\uXXXX escape", r.length⟩
  | '\\' :: e :: r =>
    match simple_escape e with
    | some ch => scan_string beginRem (ch :: acc) r
    | none => .error ⟨"Invalid \\escape", r.length + 1⟩
  | '\\' :: [] => .error ⟨"Unterminated string starting at", beginRem⟩
  | c :: r =>
    if c.toNat < 0x20 then .error ⟨"Invalid control character at", r.length + 1⟩
    else scan_string beginRem (c :: acc) r
termination_by l => l.length
decreasing_by
  all_goals first
    | (simp only [List.length_cons]; omega)
    | (subst hsur; simp only [List.length_cons]; omega)

/-- Python `dict(pairs)`: first-occurrence position, last-occurrence value. -/
def upsert (acc : List (String × JValue)) (k : String) (v : JValue) :
    List (String × JValue) :=
  if acc.any (fun kv => kv.1 == k) then
    acc.map (fun kv => if kv.1 == k then (kv.1, v) else kv)
  else acc ++ [(k, v)]

/-- Build the decoder's dict from the scanned member pairs. -/
def dict_of_pairs (pairs : List (String × JValue)) : List (String × JValue) :=
  pairs.foldl (fun acc kv => upsert acc kv.1 kv.2) []

/-- The decoder's number scanner: `NUMBER_RE` =
`-?(0|[1-9]\d*)(\.\d+)?([eE][-+]?\d+)?`, with a nonempty fraction or
exponent group (a float literal) outside this embedding.  No match means
the value dispatch failed entirely (`Expecting value`). -/
def scan_number (l : List Char) : Except ScanErr (JValue × List Char) :=
  let p : Bool × List Char := match l with | '-' :: r => (true, r) | _ => (false, l)
  let neg := p.1
  let intPart : Option (List Char × List Char) :=
    match p.2 with
    | '0' :: r => some (['0'], r)
    | c :: r =>
      if is_digit c ∧ c ≠ '0' then
        let q := span_digits r
        some (c :: q.1, q.2)
      else none
    | [] => none
  match intPart with
  | none => .error ⟨"Expecting value", l.length⟩
  | some (ds, r) =>
    let fracSplit : List Char × List Char :=
      match r with
      | '.' :: rr =>
        match span_digits rr with
        | ([], _) => ([], r)
        | (ds2, rr2) => ('.' :: ds2, rr2)
      | _ => ([], r)
    let expSplit : List Char × List Char :=
      match fracSplit.2 with
      | e :: rr =>
        if e = 'e' ∨ e = 'E' then
          let sgnSplit : List Char × List Char :=
            match rr with
            | '+' :: t => (['+'], t)
            | '-' :: t => (['-'], t)
            | _ => ([], rr)
          match span_digits sgnSplit.2 with
          | ([], _) => ([], fracSplit.2)
          | (ds3, rr2) => (e :: (sgnSplit.1 ++ ds3), rr2)
        else ([], fracSplit.2)
      | [] => ([], fracSplit.2)
    if fracSplit.1.isEmpty ∧ expSplit.1.isEmpty then
      .ok (.num (if neg then -(digitsToNat ds : Int) else (digitsToNat ds : Int)), r)
    else .error ⟨"float literal (outside this embedding)", l.length⟩

mutual
/-- The decoder's value dispatch (`scan_once`): string, object, array, the
three constants, else a number attempt; anything else is `Expecting value`
at the current position. -/
def scan_value (fuel : Nat) (l : List Char) : Except ScanErr (JValue × List Char) :=
  match fuel with
  | 0 => .error ⟨"fuel exhausted", l.length⟩
  | fuel + 1 =>
    match l with
    | '"' :: r => (scan_string (r.length + 1) [] r).map fun p => (.str p.1, p.2)
    | '{' :: r => scan_object fuel r
    | '[' :: r => scan_array fuel r
    | 'n' :: 'u' :: 'l' :: 'l' :: r => .ok (.null, r)
    | 't' :: 'r' :: 'u' :: 'e' :: r => .ok (.bool true, r)
    | 'f' :: 'a' :: 'l' :: 's' :: 'e' :: r => .ok (.bool false, r)
    | _ => scan_number l
termination_by (fuel, 2)
/-- The decoder's array reader, after `[`: skip whitespace, an immediate
`]` is the empty array, else the element loop. -/
def scan_array (fuel : Nat) (l : List Char) : Except ScanErr (JValue × List Char) :=
  match skip_ws l with
  | ']' :: r => .ok (.arr [], r)
  | l1 => (scan_elems fuel l1).map fun p => (.arr p.1, p.2)
termination_by (fuel, 1)
/-- The decoder's array element loop: a value, then whitespace, then `]`
to finish or `,` (and whitespace) to continue; anything else is
`Expecting ',' delimiter` at the offending character. -/
def scan_elems (fuel : Nat) (l : List Char) :
    Except ScanErr (List JValue × List Char) :=
  match fuel with
  | 0 => .error ⟨"fuel exhausted", l.length⟩
  | fuel + 1 =>
    match scan_value fuel l with
    | .error e => .error e
    | .ok (v, r) =>
      match skip_ws r with
      | ']' :: r2 => .ok ([v], r2)
      | ',' :: r2 =>
        match scan_elems fuel (skip_ws r2) with
        | .ok (vs, r3) => .ok (v :: vs, r3)
        | .error e => .error e
      | r1 => .error ⟨"Expecting ',' delimiter", r1.length⟩
termination_by (fuel, 0)
/-- The decoder's object reader, after `{`: skip whitespace; `}` is the
empty object, a quote starts the member loop, anything else is
`Expecting property name enclosed in double quotes`.  The scanned pairs
go through `dict(pairs)`. -/
def scan_object (fuel : Nat) (l : List Char) : Except ScanErr (JValue × List Char) :=
  match skip_ws l with
  | '}' :: r => .ok (.obj [], r)
  | '"' :: r =>
    (scan_members fuel ('"' :: r)).map fun p => (.obj (dict_of_pairs p.1), p.2)
  | l1 => .error ⟨"Expecting property name enclosed in double quotes", l1.length⟩
termination_by (fuel, 1)
/-- The decoder's object member loop: a quoted key, whitespace, `:`,
whitespace, a value, whitespace, then `}` to finish or `,` followed by the
next quoted key. -/
def scan_members (fuel : Nat) (l : List Char) :
    Except ScanErr (List (String × JValue) × List Char) :=
  match fuel with
  | 0 => .error ⟨"fuel exhausted", l.length⟩
  | fuel + 1 =>
    match l with
    | '"' :: r =>
      match scan_string (r.length + 1) [] r with
      | .error e => .error e
      | .ok (key, r1) =>
        match skip_ws r1 with
        | ':' :: r3 =>
          match scan_value fuel (skip_ws r3) with
          | .error e => .error e
          | .ok (v, r5) =>
            match skip_ws r5 with
            | '}' :: r7 => .ok ([(key, v)], r7)
            | ',' :: r7 =>
              match skip_ws r7 with
              | '"' :: r8 =>
                match scan_members fuel ('"' :: r8) with
                | .ok (ms, r9) => .ok ((key, v) :: ms, r9)
                | .error e => .error e
              | r8 => .error ⟨"Expecting property name enclosed in double quotes", r8.length⟩
            | r6 => .error ⟨"Expecting ',' delimiter", r6.length⟩
        | r2 => .error ⟨"Expecting ':' delimiter", r2.length⟩
    | _ => .error ⟨"Expecting property name enclosed in double quotes", l.length⟩
termination_by (fuel, 0)
end

/-- `json.JSONDecodeError`'s fields: message, 1-based line and column. -/
structure ParseError where
  msg : String
  line : Nat
  col : Nat
deriving Repr, DecidableEq

/-- Line and column of the position `doc.length - rem`
(`lineno = count of newlines before pos + 1`,
`colno = pos - rfind newline`). -/
def err_position (doc : List Char) (rem : Nat) : Nat × Nat :=
  let pos := doc.length - rem
  let pre := doc.take pos
  (pre.count '\n' + 1, (pre.reverse.takeWhile (· ≠ '\n')).length + 1)

/-- `json.loads`: skip leading whitespace, scan one value, allow only
trailing whitespace. -/
def json_loads (s : String) : Except ParseError JValue :=
  let l := s.data
  let l1 := skip_ws l
  match scan_value (2 * l1.length + 2) l1 with
  | .error e =>
    let p := err_position l e.rem
    .error ⟨e.msg, p.1, p.2⟩
  | .ok (v, rest) =>
    match skip_ws rest with
    | [] => .ok v
    | rest2 =>
      let p := err_position l rest2.length
      .error ⟨"Extra data", p.1, p.2⟩

/-- `parse_json_lenient`: strip comments, strip trailing commas, then the
strict decoder. -/
def parse_json_lenient (text : String) : Except ParseError JValue :=
  json_loads (strip_trailing_commas (strip_comments text))

/-! ## Auxiliary notions for the statements and proofs -/

/-- The members of an object value (`[]` for anything else). -/
def obj_members : JValue → List (String × JValue)
  | .obj d => d
  | _ => []

mutual
/-- A well-formed value tree: every object's keys are distinct, as is
automatic for the dicts the decoder produces. -/
def wf : JValue → Bool
  | .arr l => wf_list l
  | .obj m => (keys_tuple m).Nodup && wf_members m
  | _ => true
/-- `wf` on every element. -/
def wf_list : List JValue → Bool
  | [] => true
  | x :: xs => wf x && wf_list xs
/-- `wf` on every member value. -/
def wf_members : List (String × JValue) → Bool
  | [] => true
  | kv :: ms => wf kv.2 && wf_members ms
end

/-- A valid configuration per spec §7 (the caller validates): the
end-of-line string consists of whitespace the strict decoder skips, as
`"\n"` and `"\r\n"` do. -/
def valid_config (cfg : FormatConfig) : Bool :=
  cfg.eol.all is_json_ws

/-- A remainder that cannot extend a scanned number: empty, or headed by a
character that is no digit and none of `.`, `e`, `E`, `-`, `+`.  Every
character the layout engine can place after a value (`,`, `]`, `}`,
whitespace) qualifies. -/
def num_stop : List Char → Bool
  | [] => true
  | c :: _ => !(is_digit c || c = '.' || c = 'e' || c = 'E' || c = '-' || c = '+')

/-- The last character ignoring trailing Python whitespace. -/
def last_non_ws (p : List Char) : Option Char :=
  (p.reverse.dropWhile pyIsSpace).head?

/-- The string value `s` occurs somewhere in the value tree. -/
inductive StrIn (s : String) : JValue → Prop where
  | here : StrIn s (.str s)
  | in_arr (l : List JValue) (v : JValue) : v ∈ l → StrIn s v → StrIn s (.arr l)
  | in_obj (m : List (String × JValue)) (k : String) (v : JValue) :
      (k, v) ∈ m → StrIn s v → StrIn s (.obj m)

/-! ## A grammar of the layout engine's outputs

`PPd v p` derives exactly the texts the engine can emit for `v`: a
primitive's one-line dump, or a bracketed body whose elements are again
derivable, separated by `,` plus decoder whitespace, with keys encoded by
either `json.dumps` key encoder.  Every rendering strategy of
`_format_value` (and of `_compact_list` / `_compact_object`) produces a
text of this grammar; the reader's three passes are then proved
well-behaved on every text of the grammar. -/

mutual
/-- Derivations of possible renderings of a value. -/
inductive PPd : JValue → List Char → Type where
  | prim (v : JValue) (h : is_prim v = true) : PPd v (dump_oneline v)
  | arrNil (ws : List Char) (h : ws.all is_json_ws = true) :
      PPd (.arr []) ('[' :: (ws ++ [']']))
  | arrCons (l : List JValue) (pre body : List Char)
      (hpre : pre.all is_json_ws = true) (d : PPe l body) :
      PPd (.arr l) ('[' :: (pre ++ (body ++ [']'])))
  | objNil (ws : List Char) (h : ws.all is_json_ws = true) :
      PPd (.obj []) ('{' :: (ws ++ ['}']))
  | objCons (m : List (String × JValue)) (pre body : List Char)
      (hpre : pre.all is_json_ws = true) (d : PPm m body) :
      PPd (.obj m) ('{' :: (pre ++ (body ++ ['}'])))
/-- Derivations of nonempty array interiors: pieces joined by `,` plus
whitespace, with trailing whitespace before the closing bracket. -/
inductive PPe : List JValue → List Char → Type where
  | last (v : JValue) (p post : List Char) (d : PPd v p)
      (hpost : post.all is_json_ws = true) : PPe [v] (p ++ post)
  | cons (v : JValue) (p mid : List Char) (l : List JValue) (body : List Char)
      (d : PPd v p) (hmid : mid.all is_json_ws = true) (rest : PPe l body) :
      PPe (v :: l) (p ++ ',' :: (mid ++ body))
/-- Derivations of nonempty object interiors: `key: value` chunks joined
by `,` plus whitespace (keys by either key encoder). -/
inductive PPm : List (String × JValue) → List Char → Type where
  | last (k : String) (kp : List Char) (v : JValue) (p post : List Char)
      (hk : kp = dumpStr k ∨ kp = dumpKey k) (d : PPd v p)
      (hpost : post.all is_json_ws = true) :
      PPm [(k, v)] (kp ++ ':' :: ' ' :: (p ++ post))
  | cons (k : String) (kp : List Char) (v : JValue) (p mid : List Char)
      (m : List (String × JValue)) (body : List Char)
      (hk : kp = dumpStr k ∨ kp = dumpKey k) (d : PPd v p)
      (hmid : mid.all is_json_ws = true) (rest : PPm m body) :
      PPm ((k, v) :: m) (kp ++ ':' :: ' ' :: (p ++ ',' :: (mid ++ body)))
end

/-! ## Theorems -/

/-! ### Shared helper lemmas -/

theorem hexDigit_isDigit {n : Nat} (h : n < 10) : is_digit (hexDigit n) = true := by
  interval_cases n <;> decide

theorem hexDigit_ne_nl {n : Nat} (h : n < 16) : hexDigit n ≠ '\n' := by
  interval_cases n <;> decide

theorem hex4chars_no_nl (n : Nat) : '\n' ∉ hex4chars n := by
  rw [hex4chars]
  intro hmem
  simp only [List.mem_cons, List.not_mem_nil, or_false] at hmem
  rcases hmem with h | h | h | h <;>
    exact hexDigit_ne_nl (Nat.mod_lt _ (by omega)) h.symm

theorem natChars_ne_nil (n : Nat) : natChars n ≠ [] := by
  rw [natChars]
  split
  · simp
  · simp

theorem natChars_digits (n : Nat) : ∀ c ∈ natChars n, is_digit c = true := by
  induction n using Nat.strong_induction_on with
  | _ n ih =>
    rw [natChars]
    split
    next h =>
      intro c hc
      rw [List.mem_singleton] at hc
      subst hc
      exact hexDigit_isDigit h
    next h =>
      intro c hc
      rw [List.mem_append] at hc
      rcases hc with hc | hc
      · exact ih (n / 10) (by omega) c hc
      · rw [List.mem_singleton] at hc
        subst hc
        exact hexDigit_isDigit (Nat.mod_lt _ (by omega))

theorem is_digit_ne_nl {c : Char} (h : is_digit c = true) : c ≠ '\n' := by
  intro hrfl
  subst hrfl
  exact absurd h (by decide)

theorem escChar_no_nl (c : Char) : '\n' ∉ escChar c := by
  rw [escChar]
  repeat' split
  all_goals first
    | decide
    | (intro hmem
       simp only [List.mem_cons, List.not_mem_nil, or_false] at hmem
       rcases hmem with h | h | h
       · exact absurd h (by decide)
       · exact absurd h (by decide)
       · exact hex4chars_no_nl _ h)
    | (simp only [List.mem_singleton]
       intro he
       subst he
       simp_all)

theorem escCharAscii_no_nl (c : Char) : '\n' ∉ escCharAscii c := by
  rw [escCharAscii]
  repeat' split
  all_goals first
    | decide
    | (intro hmem
       simp only [List.mem_cons, List.not_mem_nil, or_false] at hmem
       rcases hmem with h | h | h
       · exact absurd h (by decide)
       · exact absurd h (by decide)
       · exact hex4chars_no_nl _ h)
    | (simp only [List.mem_singleton]
       intro he
       subst he
       simp_all)
    | (intro hmem
       simp only [List.cons_append, List.mem_cons, List.mem_append] at hmem
       rcases hmem with h | h | h
       · exact absurd h (by decide)
       · exact absurd h (by decide)
       · rcases h with h | h
         · exact hex4chars_no_nl _ h
         · rcases h with h | h | h
           · exact absurd h (by decide)
           · exact absurd h (by decide)
           · exact hex4chars_no_nl _ h)

theorem dumpStr_no_nl (s : String) : '\n' ∉ dumpStr s := by
  rw [dumpStr]
  intro hmem
  simp only [List.mem_cons, List.mem_append, List.mem_flatMap,
    List.mem_singleton] at hmem
  rcases hmem with h | ⟨a, _, ha⟩ | h
  · exact absurd h (by decide)
  · exact escChar_no_nl a ha
  · exact absurd h (by decide)

theorem dumpKey_no_nl (s : String) : '\n' ∉ dumpKey s := by
  rw [dumpKey]
  intro hmem
  simp only [List.mem_cons, List.mem_append, List.mem_flatMap,
    List.mem_singleton] at hmem
  rcases hmem with h | ⟨a, _, ha⟩ | h
  · exact absurd h (by decide)
  · exact escCharAscii_no_nl a ha
  · exact absurd h (by decide)

theorem intChars_no_nl (i : Int) : '\n' ∉ intChars i := by
  rw [intChars]
  split
  · intro hmem
    rw [List.mem_cons] at hmem
    rcases hmem with h | h
    · exact absurd h (by decide)
    · exact is_digit_ne_nl (natChars_digits _ _ h) rfl
  · intro hmem
    exact is_digit_ne_nl (natChars_digits _ _ hmem) rfl

theorem dump_oneline_prim_no_nl {v : JValue} (h : is_prim v = true) :
    '\n' ∉ dump_oneline v := by
  cases v with
  | null => rw [dump_oneline]; decide
  | bool b => cases b <;> (rw [dump_oneline]; decide)
  | num n => rw [dump_oneline]; exact intChars_no_nl n
  | str s => rw [dump_oneline]; exact dumpStr_no_nl s
  | arr l => exact absurd h (by rw [is_prim]; simp)
  | obj m => exact absurd h (by rw [is_prim]; simp)

theorem mem_joinSep {c : Char} {sep : List Char} :
    ∀ {parts : List (List Char)}, c ∈ joinSep sep parts →
      c ∈ sep ∨ ∃ p ∈ parts, c ∈ p
  | [], h => by rw [joinSep] at h; exact absurd h (List.not_mem_nil c)
  | [x], h => by
    rw [joinSep] at h
    exact Or.inr ⟨x, List.mem_singleton_self x, h⟩
  | x :: y :: xs, h => by
    rw [joinSep, List.append_assoc, List.mem_append, List.mem_append] at h
    rcases h with h | h | h
    · exact Or.inr ⟨x, List.mem_cons_self x _, h⟩
    · exact Or.inl h
    · rcases mem_joinSep h with h | ⟨p, hp, hcp⟩
      · exact Or.inl h
      · exact Or.inr ⟨p, List.mem_cons_of_mem x hp, hcp⟩

theorem line_count_eq_one {s : List Char} (h : '\n' ∉ s) : line_count s = 1 := by
  rw [line_count, List.count_eq_zero.mpr h]

theorem compactListParts_prims {cfg : FormatConfig} {level : Nat} :
    ∀ {l : List JValue}, l.all is_prim = true →
      compactListParts l cfg level = some (l.map dump_oneline)
  | [], _ => by rw [compactListParts]; rfl
  | x :: xs, h => by
    rw [List.all_cons, Bool.and_eq_true] at h
    have hx : compact_element x cfg level = some (dump_oneline x) := by
      cases x <;> simp_all [compact_element, is_prim]
    rw [compactListParts, hx, compactListParts_prims h.2]
    rfl

theorem compact_list_prims {cfg : FormatConfig} {level : Nat} {l : List JValue}
    (h : l.all is_prim = true) (hov : cfg.allow_overflow_inline_arrays = true) :
    compact_list l cfg level
      = some ("[ ".data ++ (joinSep ", ".data (l.map dump_oneline) ++ " ]".data)) := by
  rw [compact_list, compactListParts_prims h, hov]
  simp

theorem homog_of_prims {l : List JValue} (cfg : FormatConfig) (hne : l ≠ [])
    (hprim : l.all is_prim = true) :
    array_is_homog_small_objs l cfg = (false, []) := by
  obtain ⟨x, xs, rfl⟩ := List.exists_cons_of_ne_nil hne
  have hx : is_prim x = true := by
    rw [List.all_cons, Bool.and_eq_true] at hprim
    exact hprim.1
  have hobj : ((x :: xs).all fun y => match y with | .obj _ => true | _ => false) = false := by
    cases x <;> simp_all [is_prim, List.all_cons]
  rw [array_is_homog_small_objs]
  split
  · rfl
  · rw [hobj]
    simp

end Vsjsonfmt

namespace Vsjsonfmt

theorem empty_obj_eval (cfg : FormatConfig) (level : Nat) (pk : Option String) :
    format_value (.obj []) cfg level pk
      = "\x7b\n\n".data ++ (spaces (cfg.indent * level) ++ ['}']) := by
  rw [format_value]
  simp [format_members_multiline, joinSep]

theorem empty_arr_eval (cfg : FormatConfig) (level : Nat) (pk : Option String)
    (hpk : is_collapse_key pk cfg = false) :
    format_value (.arr []) cfg level pk
      = "[\n\n".data ++ (spaces (cfg.indent * level) ++ [']']) := by
  rw [format_value]
  simp [hpk, format_elems_default, joinSep, array_is_homog_small_objs]

/-- C10 (amended): an empty object always renders as the multi-line form
(opening brace line, one empty line, closing brace at the current
indent), under every configuration; an empty array renders the analogous
multi-line form whenever its parent key is not in `array_collapse_keys`
(under a collapse key the compact strategies can inline it as `[  ]`). -/
theorem C10_empty_containers (cfg : FormatConfig) (level : Nat) (pk : Option String)
    (hpk : is_collapse_key pk cfg = false) :
    format_value (.obj []) cfg level pk
      = "\x7b\n\n".data ++ (spaces (cfg.indent * level) ++ ['}']) ∧
    format_value (.arr []) cfg level pk
      = "[\n\n".data ++ (spaces (cfg.indent * level) ++ [']']) :=
  ⟨empty_obj_eval cfg level pk, empty_arr_eval cfg level pk hpk⟩

/-- C10 witness: the default configuration at level 1 under parent key
`"a"` (not a collapse key). -/
theorem C10_empty_containers_witness :
    format_value (.obj []) DEFAULT_CONFIG 1 (some "a") = "\x7b\n\n  \x7d".data ∧
    format_value (.arr []) DEFAULT_CONFIG 1 (some "a") = "[\n\n  ]".data := by
  have h := C10_empty_containers DEFAULT_CONFIG 1 (some "a") (by decide)
  rcases h with ⟨h1, h2⟩
  rw [h1, h2]
  constructor <;> rfl

/-- C10 counterexample: under the default configuration an empty array
whose parent key is `"requireStacks"` (a collapse key) renders inline as
`[  ]`, one line, not as the multi-line form the claim asserts for every
configuration. -/
theorem C10_counterexample :
    format_value (.arr []) DEFAULT_CONFIG 0 (some "requireStacks") = "[  ]".data ∧
    line_count (format_value (.arr []) DEFAULT_CONFIG 0 (some "requireStacks")) = 1 := by
  have h : format_value (.arr []) DEFAULT_CONFIG 0 (some "requireStacks") = "[  ]".data := by
    rw [format_value]
    simp [is_collapse_key, DEFAULT_CONFIG, compact_list, compactListParts, joinSep]
  exact ⟨h, by rw [h]; rfl⟩

/-- C3: the failing input for the comment-stripping pass.  On
`// "x"` + newline + `1`, the quoted span inside the line comment is
matched as a string literal by `_STRING_RE`, so `_strip_comments` removes
only the `// ` before it and the comment content `"x"` survives into the
cleaned text, instead of the whole comment being removed (which would
leave `\n1`). -/
theorem C3_strip_comments_bug :
    strip_comments "// \"x\"\n1" = "\"x\"\n1" ∧
    strip_comments "// \"x\"\n1" ≠ "\n1" := by
  have h : strip_comments "// \"x\"\n1" = "\"x\"\n1" := by
    simp [strip_comments, sc_run, scan_str_lit, comment_subs, line_comment_sub,
      block_comment_sub, split_block_close]
  refine ⟨h, ?_⟩
  rw [h]
  decide

end Vsjsonfmt

namespace Vsjsonfmt

theorem joinSep_no_nl {sep : List Char} (hsep : '\n' ∉ sep)
    {parts : List (List Char)} (hp : ∀ p ∈ parts, '\n' ∉ p) :
    '\n' ∉ joinSep sep parts := by
  intro hmem
  rcases mem_joinSep hmem with h | ⟨p, hp2, hcp⟩
  · exact hsep h
  · exact hp p hp2 hcp

theorem map_dump_no_nl {l : List JValue} (hprim : l.all is_prim = true) :
    ∀ p ∈ l.map dump_oneline, '\n' ∉ p := by
  intro p hp
  rw [List.mem_map] at hp
  obtain ⟨v, hv, rfl⟩ := hp
  rw [List.all_eq_true] at hprim
  exact dump_oneline_prim_no_nl (hprim v hv)

/-- C7 (amended): under the default configuration, a nonempty array of
primitives whose strategy-3 single-line rendering fits the width rule
renders on exactly one line (inline, whether or not the parent key is a
collapse key). -/
theorem C7_width_fit (l : List JValue) (level : Nat) (pk : Option String)
    (hne : l ≠ []) (hprim : l.all is_prim = true)
    (hfit : fits_width ('[' :: (joinSep [',', ' '] (l.map dump_oneline) ++ [']']))
      DEFAULT_CONFIG level = true) :
    line_count (format_value (.arr l) DEFAULT_CONFIG level pk) = 1 := by
  have hnl : '\n' ∉ joinSep [',', ' '] (l.map dump_oneline) :=
    joinSep_no_nl (by decide) (map_dump_no_nl hprim)
  cases hck : is_collapse_key pk DEFAULT_CONFIG with
  | true =>
    rw [format_value, compact_list_prims hprim (by decide)]
    simp only [hck, eq_self_iff_true, if_true]
    apply line_count_eq_one
    intro hmem
    simp only [List.mem_append, List.mem_cons, List.not_mem_nil, or_false] at hmem
    casesm* _ ∨ _
    all_goals first
      | exact hnl (by assumption)
      | exact absurd (by assumption) (by decide)
  | false =>
    have hemp : l.isEmpty = false := by
      cases l
      · exact absurd rfl hne
      · rfl
    have hlc1 : line_count ('[' :: (joinSep [',', ' '] (l.map dump_oneline) ++ [']'])) = 1 := by
      apply line_count_eq_one
      intro hmem
      simp only [List.mem_append, List.mem_cons, List.not_mem_nil, or_false] at hmem
      casesm* _ ∨ _
      all_goals first
        | exact hnl (by assumption)
        | exact absurd (by assumption) (by decide)
    have haw : (DEFAULT_CONFIG.array_wrap == "collapse") = true := rfl
    have hthr : DEFAULT_CONFIG.long_block_threshold = 20 := rfl
    rw [format_value, homog_of_prims DEFAULT_CONFIG hne hprim]
    simp [hck, hemp, hprim, hfit, hlc1, haw, hthr]

/-- C7 witness: `[1, 2]` at level 0 renders on one line. -/
theorem C7_width_fit_witness :
    line_count (format_value (.arr [.num 1, .num 2]) DEFAULT_CONFIG 0 none) = 1 := by
  apply C7_width_fit
  · simp
  · rfl
  · simp [fits_width, joinSep, dump_oneline, intChars, natChars, hexDigit, DEFAULT_CONFIG]

/-- C7 counterexample: the empty array is an array of primitives whose
single-line rendering `[]` fits the default width at level 0, yet the
rendered output is the three-line form `[\n\n]`, not one line. -/
theorem C7_counterexample :
    (([] : List JValue).all is_prim = true) ∧
    fits_width ('[' :: (joinSep [',', ' '] (([] : List JValue).map dump_oneline) ++ [']']))
      DEFAULT_CONFIG 0 = true ∧
    line_count (format_value (.arr []) DEFAULT_CONFIG 0 none) ≠ 1 := by
  refine ⟨rfl, rfl, ?_⟩
  rw [empty_arr_eval DEFAULT_CONFIG 0 none (by decide)]
  decide

end Vsjsonfmt

namespace Vsjsonfmt

theorem lookupKey_cons_self (k : String) (v : JValue) (d : List (String × JValue)) :
    lookupKey ((k, v) :: d) k = some v := by
  simp [lookupKey, List.find?]

theorem lookupKey_cons_ne {k k' : String} (v : JValue) (d : List (String × JValue))
    (h : k' ≠ k) : lookupKey ((k', v) :: d) k = lookupKey d k := by
  have hb : (k' == k) = false := beq_eq_false_iff_ne.mpr h
  simp [lookupKey, List.find?, hb]

theorem reorder_keys_skip {d : List (String × JValue)} (kv : String × JValue) :
    ∀ {ks : List String}, kv.1 ∉ ks →
      reorder_members ks (kv :: d) = reorder_members ks d := by
  intro ks hks
  rw [reorder_members, reorder_members]
  apply List.map_congr_left
  intro k hk
  have hne : kv.1 ≠ k := fun he => hks (he ▸ hk)
  obtain ⟨k1, v1⟩ := kv
  rw [lookupKey_cons_ne v1 d hne]

theorem reorder_members_id {d : List (String × JValue)}
    (h : (keys_tuple d).Nodup) : reorder_members (keys_tuple d) d = d := by
  induction d with
  | nil => rfl
  | cons kv d ih =>
    obtain ⟨k, v⟩ := kv
    have hn : k ∉ keys_tuple d ∧ (keys_tuple d).Nodup := by
      simpa [keys_tuple, List.nodup_cons] using h
    have h2 := @reorder_keys_skip d (k, v) (keys_tuple d) hn.1
    calc reorder_members (keys_tuple ((k, v) :: d)) ((k, v) :: d)
        = (k, (lookupKey ((k, v) :: d) k).getD .null)
            :: reorder_members (keys_tuple d) ((k, v) :: d) := by
          simp [reorder_members, keys_tuple]
      _ = (k, v) :: reorder_members (keys_tuple d) d := by
          rw [lookupKey_cons_self, h2]
          rfl
      _ = (k, v) :: d := by rw [ih hn.2]

theorem array_is_homog_true {l : List JValue} {cfg : FormatConfig} {key0 : List String}
    (hne : l ≠ []) (hmin : cfg.inline_homogeneous_min ≤ l.length)
    (hobj : ∀ el ∈ l, ∃ d, el = JValue.obj d)
    (hkeys : ∀ el ∈ l, keys_tuple (obj_members el) = key0)
    (hk0 : key0 ≠ [])
    (hsmall : ∀ el ∈ l, ∀ kv ∈ obj_members el, is_small_prim kv.2 cfg = true) :
    array_is_homog_small_objs l cfg = (true, key0) := by
  obtain ⟨x, xs, rfl⟩ := List.exists_cons_of_ne_nil hne
  obtain ⟨d0, hd0⟩ := hobj x (List.mem_cons_self x xs)
  rw [array_is_homog_small_objs]
  have h1 : ((x :: xs).isEmpty || decide ((x :: xs).length < cfg.inline_homogeneous_min))
      = false := by
    simp only [List.isEmpty_cons, Bool.false_or, decide_eq_false_iff_not]
    omega
  rw [h1]
  have h2 : ((x :: xs).all fun y => match y with | .obj _ => true | _ => false) = true := by
    rw [List.all_eq_true]
    intro y hy
    obtain ⟨d, hd⟩ := hobj y hy
    rw [hd]
  rw [h2]
  have hhead : (x :: xs).head? = some (JValue.obj d0) := by
    rw [hd0]
    rfl
  simp only [hhead]
  have hkd0 : keys_tuple d0 = key0 := by
    have := hkeys x (List.mem_cons_self x xs)
    rw [hd0] at this
    exact this
  rw [hkd0]
  have h3 : key0.isEmpty = false := by
    cases key0
    · exact absurd rfl hk0
    · rfl
  rw [h3]
  have h4 : ((x :: xs).all fun y => match y with
      | .obj d => keys_tuple d == key0 && d.all (fun kv => is_small_prim kv.2 cfg)
      | _ => false) = true := by
    rw [List.all_eq_true]
    intro y hy
    obtain ⟨d, hd⟩ := hobj y hy
    subst hd
    have hk : keys_tuple d = key0 := hkeys _ hy
    have hs : d.all (fun kv => is_small_prim kv.2 cfg) = true := by
      rw [List.all_eq_true]
      intro kv hkv
      exact hsmall _ hy kv hkv
    simp only [hk, hs, beq_self_eq_true, Bool.and_self]
  rw [h4]
  simp

theorem compact_object_of_small {d : List (String × JValue)} {cfg : FormatConfig}
    (h : ∀ kv ∈ d, is_small_prim kv.2 cfg = true) :
    compact_object d cfg
      = some ("\x7b ".data ++
          (joinSep [',', ' '] (d.map fun kv => dumpKey kv.1 ++ ": ".data ++ dump_oneline kv.2)
            ++ " \x7d".data)) := by
  rw [compact_object]
  rw [if_pos (List.all_eq_true.mpr h)]
  simp

theorem collapse_elems_eq_map {cfg : FormatConfig} {level : Nat}
    {f : JValue → List Char} :
    ∀ {l : List JValue}, (∀ el ∈ l, compact_element el cfg (level + 1) = some (f el)) →
      collapse_elems l cfg level = some (l.map f)
  | [], _ => by rw [collapse_elems]; rfl
  | x :: xs, h => by
    rw [collapse_elems, h x (List.mem_cons_self x xs),
      collapse_elems_eq_map (fun el hel => h el (List.mem_cons_of_mem x hel))]
    rfl

end Vsjsonfmt

namespace Vsjsonfmt

/-- C5 (amended): the homogeneous-object-array rule, provided additionally
that the shared ordered key set is nonempty with distinct keys, and that
the collapse-key strategy does not preempt it (the parent key is not a
collapse key, or the whole-inline attempt failed): the array renders with
exactly one compact single-line object per element, re-emitted in the
first element's shared key order, each indented one level, regardless of
`print_width`. -/
theorem C5_homog_one_per_line (l : List JValue) (cfg : FormatConfig) (level : Nat)
    (pk : Option String) (key0 : List String)
    (hinline : cfg.inline_homogeneous_objects = true)
    (hne : l ≠ []) (hmin : cfg.inline_homogeneous_min ≤ l.length)
    (hobj : ∀ el ∈ l, ∃ d, el = JValue.obj d)
    (hkeys : ∀ el ∈ l, keys_tuple (obj_members el) = key0)
    (hk0 : key0 ≠ []) (hnodup : key0.Nodup)
    (hsmall : ∀ el ∈ l, ∀ kv ∈ obj_members el, is_small_prim kv.2 cfg = true)
    (hpk : is_collapse_key pk cfg = false ∨ compact_list l cfg level = none) :
    format_value (.arr l) cfg level pk
      = "[\n".data ++
          joinSep [',', '\n'] (l.map fun el =>
            spaces (cfg.indent * (level + 1)) ++
              ("\x7b ".data ++
                (joinSep [',', ' '] ((obj_members el).map fun kv =>
                  dumpKey kv.1 ++ ": ".data ++ dump_oneline kv.2) ++ " \x7d".data))) ++
          '\n' :: (spaces (cfg.indent * level) ++ [']']) := by
  have hcomp : ∀ el ∈ l, compact_object (obj_members el) cfg
      = some ("\x7b ".data ++
          (joinSep [',', ' '] ((obj_members el).map fun kv =>
            dumpKey kv.1 ++ ": ".data ++ dump_oneline kv.2) ++ " \x7d".data)) :=
    fun el hel => compact_object_of_small (hsmall el hel)
  have hreo : ∀ el ∈ l, reorder_members key0 (obj_members el) = obj_members el := by
    intro el hel
    have hk := hkeys el hel
    rw [show key0 = keys_tuple (obj_members el) from hk.symm]
    exact reorder_members_id (by rw [hkeys el hel]; exact hnodup)
  have hline : ∀ el ∈ l, homog_elem_line el key0 cfg
      = "\x7b ".data ++
          (joinSep [',', ' '] ((obj_members el).map fun kv =>
            dumpKey kv.1 ++ ": ".data ++ dump_oneline kv.2) ++ " \x7d".data) := by
    intro el hel
    obtain ⟨d, hd⟩ := hobj el hel
    subst hd
    rw [homog_elem_line]
    have hr := hreo _ hel
    have hc := hcomp _ hel
    rw [show obj_members (JValue.obj d) = d from rfl] at hr hc ⊢
    rw [hr, hc]
    rfl
  have hmap : (l.map fun el => spaces (cfg.indent * (level + 1)) ++ homog_elem_line el key0 cfg)
      = l.map fun el =>
          spaces (cfg.indent * (level + 1)) ++
            ("\x7b ".data ++
              (joinSep [',', ' '] ((obj_members el).map fun kv =>
                dumpKey kv.1 ++ ": ".data ++ dump_oneline kv.2) ++ " \x7d".data)) := by
    apply List.map_congr_left
    intro el hel
    rw [hline el hel]
  have hhomog := array_is_homog_true hne hmin hobj hkeys hk0 hsmall
  cases hck : is_collapse_key pk cfg with
  | false =>
    rw [format_value]
    simp only [hck, Bool.false_eq_true, if_false, hinline, hhomog, eq_self_iff_true, if_true]
    rw [hmap]
  | true =>
    have hwhole : compact_list l cfg level = none := by
      rcases hpk with hpk | hpk
      · rw [hck] at hpk
        exact absurd hpk (by decide)
      · exact hpk
    have helems : collapse_elems l cfg level
        = some (l.map fun el =>
            "\x7b ".data ++
              (joinSep [',', ' '] ((obj_members el).map fun kv =>
                dumpKey kv.1 ++ ": ".data ++ dump_oneline kv.2) ++ " \x7d".data)) := by
      apply collapse_elems_eq_map
      intro el hel
      obtain ⟨d, hd⟩ := hobj el hel
      subst hd
      rw [compact_element]
      exact hcomp _ hel
    rw [format_value]
    simp only [hck, eq_self_iff_true, if_true, hwhole, helems]
    rw [List.map_map]
    rfl

end Vsjsonfmt

namespace Vsjsonfmt

/-- C5 witness: the spec's own example, three `id`/`qty` objects under the
default configuration. -/
theorem C5_homog_witness :
    format_value (.arr [.obj [("id", .str "a"), ("qty", .num 1)],
        .obj [("id", .str "b"), ("qty", .num 2)],
        .obj [("id", .str "c"), ("qty", .num 3)]]) DEFAULT_CONFIG 0 none
      = "[\n  \x7b \"id\": \"a\", \"qty\": 1 \x7d,\n  \x7b \"id\": \"b\", \"qty\": 2 \x7d,\n  \x7b \"id\": \"c\", \"qty\": 3 \x7d\n]".data := by
  rw [C5_homog_one_per_line
    [.obj [("id", .str "a"), ("qty", .num 1)],
     .obj [("id", .str "b"), ("qty", .num 2)],
     .obj [("id", .str "c"), ("qty", .num 3)]]
    DEFAULT_CONFIG 0 none ["id", "qty"] rfl (by simp) (by decide)
    (by intro el hel; simp only [List.mem_cons, List.not_mem_nil, or_false] at hel
        rcases hel with rfl | rfl | rfl <;> exact ⟨_, rfl⟩)
    (by intro el hel; simp only [List.mem_cons, List.not_mem_nil, or_false] at hel
        rcases hel with rfl | rfl | rfl <;> rfl)
    (by decide) (by decide)
    (by intro el hel kv hkv
        simp only [List.mem_cons, List.not_mem_nil, or_false] at hel
        rcases hel with rfl | rfl | rfl <;>
          (simp only [obj_members, List.mem_cons, List.not_mem_nil, or_false] at hkv
           rcases hkv with rfl | rfl <;> rfl))
    (Or.inl rfl)]
  simp [joinSep, spaces, dumpKey, dump_oneline, dumpStr, escChar, escCharAscii,
    intChars, natChars, hexDigit, obj_members, DEFAULT_CONFIG, List.replicate]

/-- C5 counterexample: an array of three empty objects satisfies every
condition of the claim as stated (three or more elements, all objects, an
identical shared ordered key set, every value a small primitive), yet the
code renders it in the default multi-line form, not as one compact object
per line. -/
theorem C5_counterexample :
    (DEFAULT_CONFIG.inline_homogeneous_objects = true) ∧
    (DEFAULT_CONFIG.inline_homogeneous_min
      ≤ ([JValue.obj [], .obj [], .obj []] : List JValue).length) ∧
    (∀ el ∈ ([JValue.obj [], .obj [], .obj []] : List JValue), ∃ d, el = JValue.obj d) ∧
    (∀ el ∈ ([JValue.obj [], .obj [], .obj []] : List JValue),
      keys_tuple (obj_members el) = ([] : List String)) ∧
    (∀ el ∈ ([JValue.obj [], .obj [], .obj []] : List JValue),
      ∀ kv ∈ obj_members el, is_small_prim kv.2 DEFAULT_CONFIG = true) ∧
    format_value (.arr [.obj [], .obj [], .obj []]) DEFAULT_CONFIG 0 none
      ≠ "[\n  \x7b  \x7d,\n  \x7b  \x7d,\n  \x7b  \x7d\n]".data := by
  refine ⟨rfl, by decide, ?_, ?_, ?_, ?_⟩
  · intro el hel
    simp only [List.mem_cons, List.not_mem_nil, or_false] at hel
    rcases hel with rfl | rfl | rfl <;> exact ⟨_, rfl⟩
  · intro el hel
    simp only [List.mem_cons, List.not_mem_nil, or_false] at hel
    rcases hel with rfl | rfl | rfl <;> rfl
  · intro el hel kv hkv
    simp only [List.mem_cons, List.not_mem_nil, or_false] at hel
    rcases hel with rfl | rfl | rfl <;> simp [obj_members] at hkv
  · have h1 : format_value (.obj []) DEFAULT_CONFIG 1 none = "\x7b\n\n  \x7d".data := by
      rw [empty_obj_eval]
      rfl
    rw [format_value]
    simp only [is_collapse_key, Bool.false_eq_true, if_false]
    rw [show array_is_homog_small_objs [JValue.obj [], .obj [], .obj []] DEFAULT_CONFIG
      = (false, []) from by rw [array_is_homog_small_objs]; rfl]
    simp only [format_elems_default, h1]
    decide

end Vsjsonfmt

namespace Vsjsonfmt

theorem collapse_elems_isSome_iff (l : List JValue) (cfg : FormatConfig) (level : Nat) :
    (collapse_elems l cfg level).isSome = true ↔
      ∀ el ∈ l, (compact_element el cfg (level + 1)).isSome = true := by
  induction l with
  | nil => simp [collapse_elems]
  | cons x xs ih =>
    rw [collapse_elems]
    cases hx : compact_element x cfg (level + 1) with
    | none => simp [hx]
    | some s =>
      cases hxs : collapse_elems xs cfg level with
      | none =>
        have hforall : ¬ ∀ el ∈ xs, (compact_element el cfg (level + 1)).isSome = true := by
          intro hf
          have hbad := ih.mpr hf
          rw [hxs] at hbad
          simp at hbad
        constructor
        · intro hko
          simp at hko
        · intro hall
          exact absurd (fun el hel => hall el (List.mem_cons_of_mem x hel)) hforall
      | some parts =>
        rw [hxs] at ih
        simp only [Option.isSome_some, true_iff] at ih
        simp [hx]
        exact ih

/-- C6: the collapse-key fallback strategy.  With the parent key in
`array_collapse_keys` and the whole-inline attempt failed, (i) the
per-element strategy succeeds exactly when every element has a
single-line compact form, (ii) on success each element's compact form is
laid out one per line, indented one level, and (iii) on failure the whole
array falls through to the later strategies (the same output as with a
non-collapse parent key). -/
theorem C6_collapse_key_fallback (l : List JValue) (cfg : FormatConfig) (level : Nat)
    (k : String) (hk : cfg.array_collapse_keys.contains k = true)
    (hwhole : compact_list l cfg level = none) :
    ((collapse_elems l cfg level).isSome = true ↔
      ∀ el ∈ l, (compact_element el cfg (level + 1)).isSome = true) ∧
    (∀ parts, collapse_elems l cfg level = some parts →
      format_value (.arr l) cfg level (some k)
        = "[\n".data ++
            joinSep [',', '\n'] (parts.map fun p => spaces (cfg.indent * (level + 1)) ++ p) ++
            '\n' :: (spaces (cfg.indent * level) ++ [']'])) ∧
    (collapse_elems l cfg level = none →
      format_value (.arr l) cfg level (some k) = format_value (.arr l) cfg level none) := by
  have hck : is_collapse_key (some k) cfg = true := hk
  refine ⟨collapse_elems_isSome_iff l cfg level, ?_, ?_⟩
  · intro parts hparts
    rw [format_value]
    simp only [hck, eq_self_iff_true, if_true, hwhole, hparts]
  · intro hfail
    rw [format_value, format_value]
    simp only [hck, eq_self_iff_true, if_true, hwhole, hfail,
      show is_collapse_key none cfg = false from rfl, Bool.false_eq_true, if_false]

/-- C6 witness: under a narrow no-overflow configuration, the array
`[[1],[2]]` under the collapse key `"drops"`: the whole-inline attempt
fails the width check and each element compacts, so each inner array is
laid out compactly on its own line. -/
theorem C6_collapse_key_fallback_witness :
    format_value (.arr [.arr [.num 1], .arr [.num 2]])
      { indent := 2, print_width := 10, array_wrap := "collapse", object_wrap := "collapse",
        aggressive_inline := true, long_block_threshold := 20, eol := ['\n'],
        array_collapse_keys := ["requireStacks", "addElements", "removeElements",
          "ingredients", "outputs", "drops"],
        inline_homogeneous_objects := true, inline_homogeneous_min := 3,
        inline_string_max := 120, allow_overflow_inline_arrays := false }
        0 (some "drops")
      = "[\n  [ 1 ],\n  [ 2 ]\n]".data := by
  have h := C6_collapse_key_fallback [.arr [.num 1], .arr [.num 2]]
    { indent := 2, print_width := 10, array_wrap := "collapse", object_wrap := "collapse",
        aggressive_inline := true, long_block_threshold := 20, eol := ['\n'],
        array_collapse_keys := ["requireStacks", "addElements", "removeElements",
          "ingredients", "outputs", "drops"],
        inline_homogeneous_objects := true, inline_homogeneous_min := 3,
        inline_string_max := 120, allow_overflow_inline_arrays := false }
    0 "drops" (by decide)
    (by simp [compact_list, compactListParts, compact_element, dump_oneline, intChars,
      natChars, hexDigit, joinSep, fits_width])
  have h2 := h.2.1 ["[ 1 ]".data, "[ 2 ]".data]
    (by simp [collapse_elems, compact_element, compact_list, compactListParts,
      dump_oneline, intChars, natChars, hexDigit, joinSep, fits_width])
  rw [h2]
  simp [joinSep, spaces, List.replicate]

end Vsjsonfmt

namespace Vsjsonfmt

theorem pos_of_ne_nil {l : List Char} (h : l ≠ []) : 0 < l.length := by
  cases l
  · exact absurd rfl h
  · simp

theorem dump_oneline_ne_nil (v : JValue) : dump_oneline v ≠ [] := by
  cases v with
  | null => rw [dump_oneline]; decide
  | bool b => cases b <;> (rw [dump_oneline]; decide)
  | num n =>
    rw [dump_oneline, intChars]
    split
    · simp
    · exact natChars_ne_nil _
  | str s => rw [dump_oneline, dumpStr]; simp
  | arr l => rw [dump_oneline]; simp
  | obj m => rw [dump_oneline]; simp

theorem compact_list_pos {l : List JValue} {cfg : FormatConfig} {level : Nat}
    {p : List Char} (h : compact_list l cfg level = some p) : 0 < p.length := by
  rw [compact_list] at h
  split at h
  · exact absurd h (by simp)
  · simp only [] at h
    split at h
    · rw [Option.some.injEq] at h
      subst h
      simp
    · exact absurd h (by simp)

/-- C8: render is total: for every value tree, every configuration, every
nesting level and parent key, the layout engine produces a (nonempty)
output string — whatever compact strategies fail, the default multi-line
fallback is always available, and `format_json` appends the configured
end-of-line to that output. -/
theorem C8_render_total (v : JValue) (cfg : FormatConfig) (level : Nat)
    (pk : Option String) :
    0 < (format_value v cfg level pk).length ∧
    format_json v cfg = format_value v cfg 0 none ++ cfg.eol := by
  refine ⟨?_, rfl⟩
  cases v with
  | null =>
    simp only [format_value]
    exact pos_of_ne_nil (dump_oneline_ne_nil _)
  | bool b =>
    simp only [format_value]
    exact pos_of_ne_nil (dump_oneline_ne_nil _)
  | num n =>
    simp only [format_value]
    exact pos_of_ne_nil (dump_oneline_ne_nil _)
  | str s =>
    simp only [format_value]
    exact pos_of_ne_nil (dump_oneline_ne_nil _)
  | arr l =>
    rw [format_value]
    cases hck : is_collapse_key pk cfg with
    | true =>
      simp only [hck, eq_self_iff_true, if_true]
      cases hcl : compact_list l cfg level with
      | some w =>
        simp only [hcl]
        exact compact_list_pos hcl
      | none =>
        simp only [hcl]
        cases hce : collapse_elems l cfg level with
        | some es => simp [hce]
        | none =>
          simp only [hce]
          repeat' split
          all_goals solve
            | simp
            | (rename_i heq
               repeat' split at heq
               all_goals solve
                 | (injection heq with heq; subst heq; simp only [List.length_cons, List.length_append, List.length_nil]; omega)
                 | (subst heq; simp only [List.length_cons, List.length_append, List.length_nil]; omega)
                 | simp_all)
    | false =>
      simp only [hck, Bool.false_eq_true, if_false]
      repeat' split
      all_goals solve
        | simp
        | (rename_i heq
           repeat' split at heq
           all_goals solve
             | (injection heq with heq; subst heq; simp only [List.length_cons, List.length_append, List.length_nil]; omega)
             | (subst heq; simp only [List.length_cons, List.length_append, List.length_nil]; omega)
             | simp_all)
  | obj m =>
    rw [format_value]
    cases hw : (cfg.object_wrap == "collapse") with
    | false =>
      simp only [hw, Bool.false_eq_true, if_false]
      simp
    | true =>
      simp only [hw, eq_self_iff_true, if_true]
      cases hg : ((m.all fun kv => is_prim kv.2) || cfg.aggressive_inline) && !m.isEmpty with
      | false =>
        simp only [hg, Bool.false_eq_true, if_false]
        simp
      | true =>
        simp only [hg, eq_self_iff_true, if_true]
        cases hic : inline_chunks m cfg level with
        | none =>
          simp only [hic]
          simp
        | some chunks =>
          simp only [hic]
          repeat' split
          all_goals try solve | simp
          rename_i heq
          split at heq
          · injection heq with heq
            subst heq
            simp only [List.length_cons, List.length_append, List.length_nil]
            omega
          · exact absurd heq (by simp)

end Vsjsonfmt

namespace Vsjsonfmt

theorem strip_passes_id_on_missing_comma :
    strip_trailing_commas (strip_comments "\x7b\"a\":1 \"b\":2\x7d")
      = "\x7b\"a\":1 \"b\":2\x7d" := by
  simp [strip_comments, sc_run, scan_str_lit, comment_subs, line_comment_sub,
    block_comment_sub, split_block_close, strip_trailing_commas, stc_run,
    pop_trailing_comma, pyIsSpace]

set_option maxHeartbeats 1000000 in
theorem loads_missing_comma :
    json_loads "\x7b\"a\":1 \"b\":2\x7d"
      = .error ⟨"Expecting ',' delimiter", 1, 8⟩ := by
  simp [json_loads, skip_ws, is_json_ws, scan_value, scan_object, scan_members,
    scan_string, scan_number, span_digits, is_digit, digitsToNat, digitVal,
    simple_escape, hex4val, dict_of_pairs, upsert, err_position, Except.map]

theorem loads_lone_bracket :
    json_loads (strip_trailing_commas (strip_comments "["))
      = .error ⟨"Expecting value", 1, 2⟩ := by
  simp [json_loads, strip_comments, sc_run, scan_str_lit,
    comment_subs, line_comment_sub, block_comment_sub, split_block_close,
    strip_trailing_commas, stc_run, pop_trailing_comma, pyIsSpace, skip_ws,
    is_json_ws, scan_value, scan_array, scan_elems, scan_number, span_digits,
    is_digit, err_position, Except.map]

/-- C9: parse failure reporting.  Whenever the cleaned text (comments
stripped, trailing commas stripped) is not valid JSON, the lenient parser
returns the strict decoder's `ParseError` — message, line and column —
rather than a value; on the spec's malformed example
`\x7b"a":1 "b":2\x7d` (missing comma) the error is
`Expecting ',' delimiter` at line 1, column 8, pointing at the offending
token `"b"`. -/
theorem C9_parse_error_reporting :
    (∀ (T : String) (e : ParseError),
        json_loads (strip_trailing_commas (strip_comments T)) = .error e →
        parse_json_lenient T = .error e) ∧
    parse_json_lenient "\x7b\"a\":1 \"b\":2\x7d"
      = .error ⟨"Expecting ',' delimiter", 1, 8⟩ := by
  constructor
  · intro T e h
    rw [parse_json_lenient]
    exact h
  · rw [parse_json_lenient, strip_passes_id_on_missing_comma]
    exact loads_missing_comma

/-- C9 witness: the error-propagation conjunct applied to the concrete
input `[` (unterminated array), whose cleaned form fails with
`Expecting value` at line 1, column 2. -/
theorem C9_parse_error_reporting_witness :
    parse_json_lenient "[" = .error ⟨"Expecting value", 1, 2⟩ :=
  C9_parse_error_reporting.1 "[" ⟨"Expecting value", 1, 2⟩ loads_lone_bracket

end Vsjsonfmt

namespace Vsjsonfmt

/-! ### Foundations for the round-trip development -/

theorem mk_data (s : String) : String.mk s.data = s := rfl

theorem skip_ws_cons_ws {c : Char} (h : is_json_ws c = true) (t : List Char) :
    skip_ws (c :: t) = skip_ws t := by
  rw [skip_ws]
  simp [h]

theorem skip_ws_cons_not {c : Char} (h : is_json_ws c = false) (t : List Char) :
    skip_ws (c :: t) = c :: t := by
  rw [skip_ws]
  simp [h]

theorem skip_ws_append_ws {ws : List Char} (h : ws.all is_json_ws = true)
    (l : List Char) : skip_ws (ws ++ l) = skip_ws l := by
  induction ws with
  | nil => rfl
  | cons c t ih =>
    rw [List.all_cons, Bool.and_eq_true] at h
    rw [List.cons_append, skip_ws_cons_ws h.1, ih h.2]

theorem skip_ws_ws_nil {ws : List Char} (h : ws.all is_json_ws = true) :
    skip_ws ws = [] := by
  have := skip_ws_append_ws h []
  simpa using this

theorem skip_ws_ws_cons {ws : List Char} (h : ws.all is_json_ws = true)
    {c : Char} (hc : is_json_ws c = false) (t : List Char) :
    skip_ws (ws ++ c :: t) = c :: t := by
  rw [skip_ws_append_ws h, skip_ws_cons_not hc]

theorem num_stop_ws_head {c : Char} (h : is_json_ws c = true) (r : List Char) :
    num_stop (c :: r) = true := by
  rw [is_json_ws] at h
  rw [num_stop]
  rcases Bool.or_eq_true_iff.mp h with h1 | h1
  · rcases Bool.or_eq_true_iff.mp h1 with h2 | h2
    · rcases Bool.or_eq_true_iff.mp h2 with h3 | h3
      all_goals (simp only [decide_eq_true_eq] at h3; subst h3; decide)
    · simp only [decide_eq_true_eq] at h2; subst h2; decide
  · simp only [decide_eq_true_eq] at h1; subst h1; decide

theorem num_stop_closer {c : Char}
    (hc : c = ']' ∨ c = '}' ∨ c = ',') (r : List Char) :
    num_stop (c :: r) = true := by
  rcases hc with h | h | h <;> (subst h; rw [num_stop]; decide)

theorem num_stop_ws_then {ws : List Char} (hws : ws.all is_json_ws = true)
    {l : List Char} (hl : num_stop l = true) : num_stop (ws ++ l) = true := by
  cases ws with
  | nil => simpa using hl
  | cons c t =>
    rw [List.all_cons, Bool.and_eq_true] at hws
    exact num_stop_ws_head hws.1 _

theorem joinSep_cons₂ (sep x y : List Char) (xs : List (List Char)) :
    joinSep sep (x :: y :: xs) = x ++ sep ++ joinSep sep (y :: xs) := by
  rw [joinSep]

theorem joinSep_map_pre (sep c : List Char) :
    ∀ (ps : List (List Char)), ps ≠ [] →
      joinSep sep (ps.map (c ++ ·)) = c ++ joinSep (sep ++ c) ps
  | [], h => absurd rfl h
  | [p], _ => by simp [joinSep]
  | p :: q :: ps, _ => by
    calc joinSep sep ((p :: q :: ps).map (c ++ ·))
        = (c ++ p) ++ sep ++ joinSep sep ((q :: ps).map (c ++ ·)) := by
          simp only [List.map_cons, joinSep_cons₂]
      _ = (c ++ p) ++ sep ++ (c ++ joinSep (sep ++ c) (q :: ps)) := by
          rw [joinSep_map_pre sep c (q :: ps) (by simp)]
      _ = c ++ (p ++ (sep ++ c) ++ joinSep (sep ++ c) (q :: ps)) := by simp
      _ = c ++ joinSep (sep ++ c) (p :: q :: ps) := by rw [joinSep_cons₂]

theorem ws_is_json_append {a b : List Char} (ha : a.all is_json_ws = true)
    (hb : b.all is_json_ws = true) : (a ++ b).all is_json_ws = true := by
  rw [List.all_append, ha, hb]
  rfl

end Vsjsonfmt

namespace Vsjsonfmt

theorem char_valid_range (c : Char) :
    c.toNat < 0xd800 ∨ (0xe000 ≤ c.toNat ∧ c.toNat < 0x110000) := by
  have h := c.valid
  rcases h with h | h
  · left; exact_mod_cast h
  · exact Or.inr ⟨by exact_mod_cast h.1, by exact_mod_cast h.2⟩

theorem hexDigitVal_hexDigit {k : Nat} (h : k < 16) :
    hexDigitVal (hexDigit k) = some k := by
  interval_cases k <;> rfl

theorem hex4val_hex4chars {n : Nat} (h : n < 0x10000) :
    hex4val (hexDigit (n / 4096 % 16)) (hexDigit (n / 256 % 16))
      (hexDigit (n / 16 % 16)) (hexDigit (n % 16)) = some n := by
  rw [hex4val, hexDigitVal_hexDigit (Nat.mod_lt _ (by omega)),
    hexDigitVal_hexDigit (Nat.mod_lt _ (by omega)),
    hexDigitVal_hexDigit (Nat.mod_lt _ (by omega)),
    hexDigitVal_hexDigit (Nat.mod_lt _ (by omega))]
  exact congrArg some (by omega)

theorem scan_string_unicode {n : Nat} (hlo : n < 0xd800 ∨ 0xe000 ≤ n)
    (hhi : n < 0x10000) (br : Nat) (acc t : List Char) :
    scan_string br acc ('\\' :: 'u' :: (hex4chars n ++ t))
      = scan_string br (Char.ofNat n :: acc) t := by
  rw [hex4chars, List.cons_append, List.cons_append, List.cons_append,
    List.cons_append, List.nil_append]
  simp only [scan_string]
  simp only [hex4val_hex4chars hhi]
  rw [if_neg (by omega), if_neg (by omega)]

end Vsjsonfmt

namespace Vsjsonfmt

theorem scan_string_plain {c : Char} (h1 : c ≠ '"') (h2 : c ≠ '\\')
    (h3 : ¬ c.toNat < 0x20) (br : Nat) (acc t : List Char) :
    scan_string br acc (c :: t) = scan_string br (c :: acc) t := by
  rw [scan_string.eq_def]
  split
  all_goals simp_all

end Vsjsonfmt

namespace Vsjsonfmt

theorem scan_string_simple {e ch : Char} (he : e ≠ 'u')
    (hs : simple_escape e = some ch) (br : Nat) (acc t : List Char) :
    scan_string br acc ('\\' :: e :: t) = scan_string br (ch :: acc) t := by
  rw [scan_string.eq_def]
  split
  all_goals try simp_all
  rename_i hall hnil heq
  exact absurd heq.2.symm (hall e t heq.1.symm)

theorem scan_string_surrogate {c : Char} (hge : 0x10000 ≤ c.toNat)
    (br : Nat) (acc t : List Char) :
    scan_string br acc
      (('\\' :: 'u' :: hex4chars (0xd800 + (c.toNat - 0x10000) / 0x400)) ++
        (('\\' :: 'u' :: hex4chars (0xdc00 + (c.toNat - 0x10000) % 0x400)) ++ t))
      = scan_string br (c :: acc) t := by
  have hv := char_valid_range c
  have hub : c.toNat < 0x110000 := by omega
  have hdiv : (c.toNat - 0x10000) / 0x400 < 0x400 := by omega
  have hmod : (c.toNat - 0x10000) % 0x400 < 0x400 := Nat.mod_lt _ (by omega)
  rw [hex4chars, hex4chars]
  simp only [List.cons_append, List.nil_append]
  simp only [scan_string]
  simp only [hex4val_hex4chars (show 0xd800 + (c.toNat - 0x10000) / 0x400 < 0x10000 by omega)]
  rw [if_pos (by omega)]
  simp only [hex4val_hex4chars (show 0xdc00 + (c.toNat - 0x10000) % 0x400 < 0x10000 by omega)]
  rw [if_pos (by omega)]
  have harith : 0x10000 + (0xd800 + (c.toNat - 0x10000) / 0x400 - 0xd800) * 0x400 +
      (0xdc00 + (c.toNat - 0x10000) % 0x400 - 0xdc00) = c.toNat := by
    have := Nat.div_add_mod (c.toNat - 0x10000) 0x400
    omega
  rw [harith, Char.ofNat_toNat]

set_option maxHeartbeats 2000000 in
theorem scan_string_escChar (c : Char) (br : Nat) (acc t : List Char) :
    scan_string br acc (escChar c ++ t) = scan_string br (c :: acc) t := by
  rw [escChar]
  split_ifs with h1 h2 h3 h4 h5 h6 h7 h8
  · subst h1; simp only [List.cons_append, List.nil_append]; exact @scan_string_simple '\"' '\"' (by decide) rfl br acc t
  · subst h2; simp only [List.cons_append, List.nil_append]; exact @scan_string_simple '\\' '\\' (by decide) rfl br acc t
  · subst h3; simp only [List.cons_append, List.nil_append]; exact @scan_string_simple 'b' '\x08' (by decide) rfl br acc t
  · subst h4; simp only [List.cons_append, List.nil_append]; exact @scan_string_simple 'f' '\x0c' (by decide) rfl br acc t
  · subst h5; simp only [List.cons_append, List.nil_append]; exact @scan_string_simple 'n' '\n' (by decide) rfl br acc t
  · subst h6; simp only [List.cons_append, List.nil_append]; exact @scan_string_simple 'r' '\x0d' (by decide) rfl br acc t
  · subst h7; simp only [List.cons_append, List.nil_append]; exact @scan_string_simple 't' '\t' (by decide) rfl br acc t
  · rw [List.cons_append, List.cons_append,
      scan_string_unicode (Or.inl (by omega)) (by omega), Char.ofNat_toNat]
  · rw [List.singleton_append, scan_string_plain h1 h2 h8]

set_option maxHeartbeats 2000000 in
theorem scan_string_escCharAscii (c : Char) (br : Nat) (acc t : List Char) :
    scan_string br acc (escCharAscii c ++ t) = scan_string br (c :: acc) t := by
  rw [escCharAscii]
  split_ifs with h1 h2 h3 h4 h5 h6 h7 h8 h9 h10
  · subst h1; simp only [List.cons_append, List.nil_append]; exact @scan_string_simple '\"' '\"' (by decide) rfl br acc t
  · subst h2; simp only [List.cons_append, List.nil_append]; exact @scan_string_simple '\\' '\\' (by decide) rfl br acc t
  · subst h3; simp only [List.cons_append, List.nil_append]; exact @scan_string_simple 'b' '\x08' (by decide) rfl br acc t
  · subst h4; simp only [List.cons_append, List.nil_append]; exact @scan_string_simple 'f' '\x0c' (by decide) rfl br acc t
  · subst h5; simp only [List.cons_append, List.nil_append]; exact @scan_string_simple 'n' '\n' (by decide) rfl br acc t
  · subst h6; simp only [List.cons_append, List.nil_append]; exact @scan_string_simple 'r' '\x0d' (by decide) rfl br acc t
  · subst h7; simp only [List.cons_append, List.nil_append]; exact @scan_string_simple 't' '\t' (by decide) rfl br acc t
  · rw [List.cons_append, List.cons_append,
      scan_string_unicode (Or.inl (by omega)) (by omega), Char.ofNat_toNat]
  · rw [List.singleton_append, scan_string_plain h1 h2 (by omega)]
  · have hv := char_valid_range c
    rw [List.cons_append, List.cons_append,
      scan_string_unicode (by omega) (by omega), Char.ofNat_toNat]
  · rw [List.append_assoc]
    simp only [List.cons_append, List.nil_append]
    exact scan_string_surrogate (by omega) br acc t

theorem scan_string_flat_escChar (cs : List Char) :
    ∀ (acc : List Char) (br : Nat) (rest : List Char),
      scan_string br acc (cs.flatMap escChar ++ '"' :: rest)
        = .ok (String.mk (acc.reverse ++ cs), rest) := by
  induction cs with
  | nil =>
    intro acc br rest
    simp only [List.flatMap_nil, List.nil_append, scan_string, List.append_nil]
  | cons c cs ih =>
    intro acc br rest
    rw [List.flatMap_cons, List.append_assoc, scan_string_escChar, ih]
    simp

theorem scan_string_flat_escCharAscii (cs : List Char) :
    ∀ (acc : List Char) (br : Nat) (rest : List Char),
      scan_string br acc (cs.flatMap escCharAscii ++ '"' :: rest)
        = .ok (String.mk (acc.reverse ++ cs), rest) := by
  induction cs with
  | nil =>
    intro acc br rest
    simp only [List.flatMap_nil, List.nil_append, scan_string, List.append_nil]
  | cons c cs ih =>
    intro acc br rest
    rw [List.flatMap_cons, List.append_assoc, scan_string_escCharAscii, ih]
    simp

end Vsjsonfmt
